/-
Verification of the villiany-data-types library (src/lib.rs): a fixed-array
serde codec, fixed-size grid wrapper types (ChunkDataRow, ChunkData) and a
2-D signed-integer coordinate type (Coord) with componentwise arithmetic.

Shallow embedding notes:
* The serde data model is embedded as a tree of `Value`s (scalars and
  sequences); a self-describing deserializer hands the visitor the list of
  values of a sequence, and `seq.next_element()` pops the next value (or
  yields none when the input is exhausted).
* `BlockID` is `usize`; it is modelled as `Nat` (no claim involves usize
  overflow).  `BlockID::default()` is `0`.
* `Coord` holds two `isize` fields, modelled as `Int`.  Rust division and
  remainder on `isize` truncate toward zero (`Int.tdiv` / `Int.tmod`) and
  panic when the divisor is zero and when the dividend is `isize::MIN` and
  the divisor is `-1` (signed overflow); the panicking operations are
  embedded as `Option`-valued functions that return `none` exactly on the
  panicking inputs.
-/
import Mathlib

/-- The serde data model, restricted to what the library produces: scalar
unsigned integers and sequences.  `serialize_tuple(N)` followed by `N`
`serialize_element` calls produces `Value.seq` of the element values. -/
inductive Value where
  | nat : Nat → Value
  | seq : List Value → Value

/-- Deserialization errors.  `invalidLength i n` models
`Error::invalid_length(i, &self)` raised by `ArrayVisitor::visit_seq` where
`self.expecting` prints "an array of length n"; `invalidType` models a value
of the wrong kind reaching a visitor. -/
inductive DeError where
  | invalidLength (index : Nat) (expected : Nat) : DeError
  | invalidType : DeError
deriving DecidableEq

/-- `<[T; N] as DeSerializable>::serialize` (lib.rs lines 15-21): opens a
tuple of length `N` and serializes the elements in index order.  With the
element serializer `serT`, the wire form of the array `a` is the sequence of
the serialized elements.  (Serialization itself cannot fail in this model;
the only serde errors come from the backend, which is not part of the
codec.) -/
def serializeArr {T : Type} (serT : T → Value) (a : List T) : Value :=
  Value.seq (a.map serT)

/-- The loop of `ArrayVisitor::visit_seq` (lib.rs lines 35-43):
`for (i, elem) in arr.iter_mut().enumerate() { *elem = seq.next_element()?
  .ok_or_else(|| Error::invalid_length(i, &self))?; }`.
`arr` is the buffer being filled, `i` the current index, the third argument
the number of iterations still to run, and the last the remaining input
sequence.  `n` is the `N` printed by `expecting`. -/
def visitSeqLoop {T : Type} (deT : Value → Except DeError T) (n : Nat) :
    List T → Nat → Nat → List Value → Except DeError (List T)
  | arr, _, 0, _ => Except.ok arr
  | _, i, _ + 1, [] => Except.error (DeError.invalidLength i n)
  | arr, i, r + 1, v :: rest =>
    match deT v with
    | Except.ok x => visitSeqLoop deT n (arr.set i x) (i + 1) r rest
    | Except.error e => Except.error e

/-- `<[T; N] as DeSerializable>::deserialize` (lib.rs lines 23-48):
`deserialize_tuple(N, ArrayVisitor)`.  The visitor pre-fills a buffer
`[T::default(); N]` and overwrites every slot from the input sequence; a
non-sequence value is a type error. -/
def deserializeArr {T : Type} (deT : Value → Except DeError T) (dflt : T)
    (n : Nat) (v : Value) : Except DeError (List T) :=
  match v with
  | Value.seq vs => visitSeqLoop deT n (List.replicate n dflt) 0 n vs
  | _ => Except.error DeError.invalidType

/-- `pub type BlockID = usize` (lib.rs line 5). -/
abbrev BlockID := Nat

/-- `usize::default()` is `0`. -/
def blockDefault : BlockID := 0

/-- Serde serialization of a `BlockID` scalar. -/
def blockSer (b : BlockID) : Value := Value.nat b

/-- Serde deserialization of a `BlockID` scalar. -/
def blockDe : Value → Except DeError BlockID
  | Value.nat m => Except.ok m
  | _ => Except.error DeError.invalidType

/-- `pub struct ChunkDataRow<const N: usize>([BlockID; N])` (lib.rs lines
51-55): a fixed-length row, embedded as a list with its length pinned to
`N`. -/
def ChunkDataRow (N : Nat) : Type := { l : List BlockID // l.length = N }

/-- `ChunkDataRow::new(block)` (lib.rs lines 57-61): `Self([block; N])`. -/
def ChunkDataRow.new (N : Nat) (block : BlockID) : ChunkDataRow N :=
  ⟨List.replicate N block, List.length_replicate N block⟩

/-- `Default for ChunkDataRow` (lib.rs lines 63-67):
`ChunkDataRow([BlockID::default(); N])`. -/
def ChunkDataRow.defaultRow (N : Nat) : ChunkDataRow N :=
  ⟨List.replicate N blockDefault, List.length_replicate N blockDefault⟩

/-- `Index<usize> for ChunkDataRow` (lib.rs lines 69-74) at an in-range
index; an out-of-range index is a panic in Rust, which the `Fin N` argument
rules out. -/
def ChunkDataRow.get {N : Nat} (r : ChunkDataRow N) (i : Fin N) : BlockID :=
  r.val.get (Fin.cast r.property.symm i)

/-- Serde serialization of a row: the derived `Serialize` forwards the inner
array to the fixed-array codec (`#[serde(with = "DeSerializable")]`,
lib.rs line 53). -/
def ChunkDataRow.serialize {N : Nat} (r : ChunkDataRow N) : Value :=
  serializeArr blockSer r.val

/-- Serde deserialization of a row via the fixed-array codec.  The length
check is statically guaranteed in Rust by the array type `[BlockID; N]`
(the codec always produces exactly `N` elements); the `else` branch is dead
code needed only to package the subtype. -/
def ChunkDataRow.deserialize (N : Nat) (v : Value) :
    Except DeError (ChunkDataRow N) :=
  match deserializeArr blockDe blockDefault N v with
  | Except.ok l =>
    if h : l.length = N then Except.ok ⟨l, h⟩
    else Except.error DeError.invalidType
  | Except.error e => Except.error e

/-- `pub struct ChunkData<const X: usize, const Y: usize>([ChunkDataRow<X>;
Y])` (lib.rs lines 82-86). -/
def ChunkData (X Y : Nat) : Type := { l : List (ChunkDataRow X) // l.length = Y }

/-- `ChunkData::new(block)` (lib.rs lines 88-92):
`Self([ChunkDataRow::new(block); Y])`. -/
def ChunkData.new (X Y : Nat) (block : BlockID) : ChunkData X Y :=
  ⟨List.replicate Y (ChunkDataRow.new X block),
    List.length_replicate Y (ChunkDataRow.new X block)⟩

/-- `Default for ChunkData` (lib.rs lines 94-98):
`Self([ChunkDataRow::default(); Y])`. -/
def ChunkData.defaultGrid (X Y : Nat) : ChunkData X Y :=
  ⟨List.replicate Y (ChunkDataRow.defaultRow X),
    List.length_replicate Y (ChunkDataRow.defaultRow X)⟩

/-- `Index<usize> for ChunkData` (lib.rs lines 100-105) at an in-range
index. -/
def ChunkData.get {X Y : Nat} (g : ChunkData X Y) (j : Fin Y) :
    ChunkDataRow X :=
  g.val.get (Fin.cast g.property.symm j)

/-- Serde serialization of a grid: the derived `Serialize` forwards the
inner array `[ChunkDataRow<X>; Y]` to the fixed-array codec (lib.rs line
84), nesting the codec one level. -/
def ChunkData.serialize {X Y : Nat} (g : ChunkData X Y) : Value :=
  serializeArr ChunkDataRow.serialize g.val

/-- Serde deserialization of a grid via the nested fixed-array codec; as in
`ChunkDataRow.deserialize`, the length check is statically guaranteed in
Rust and its `else` branch is dead code. -/
def ChunkData.deserialize (X Y : Nat) (v : Value) :
    Except DeError (ChunkData X Y) :=
  match deserializeArr (ChunkDataRow.deserialize X) (ChunkDataRow.defaultRow X)
      Y v with
  | Except.ok l =>
    if h : l.length = Y then Except.ok ⟨l, h⟩
    else Except.error DeError.invalidType
  | Except.error e => Except.error e

/-- `isize::MIN` on a 64-bit target: `-(2^63)`. -/
def isizeMin : Int := -9223372036854775808

/-- `pub struct Coord(isize, isize)` (lib.rs line 114). -/
structure Coord where
  x : Int
  y : Int
deriving DecidableEq

/-- `Coord::new(x, y)` (lib.rs lines 117-119). -/
def Coord.new (x y : Int) : Coord := ⟨x, y⟩

/-- `Add<Coord> for Coord` (lib.rs lines 136-141): componentwise addition.
(No claim involves isize overflow of addition, so it is embedded as exact
integer addition.) -/
def Coord.add (a b : Coord) : Coord := ⟨a.x + b.x, a.y + b.y⟩

/-- `Mul<Coord> for Coord` (lib.rs lines 143-148): componentwise
multiplication, embedded exactly like `Coord.add`. -/
def Coord.mul (a b : Coord) : Coord := ⟨a.x * b.x, a.y * b.y⟩

/-- One component of Rust `isize` division: truncating division that panics
(none) on a zero divisor and on `isize::MIN / -1` (signed overflow). -/
def isizeDiv (a b : Int) : Option Int :=
  if b = 0 then none
  else if a = isizeMin ∧ b = -1 then none
  else some (a.tdiv b)

/-- One component of Rust `isize` remainder: truncated remainder that panics
(none) on a zero divisor and on `isize::MIN % -1` (signed overflow). -/
def isizeRem (a b : Int) : Option Int :=
  if b = 0 then none
  else if a = isizeMin ∧ b = -1 then none
  else some (a.tmod b)

/-- `Div<Coord> for Coord` (lib.rs lines 150-155): componentwise division;
a panic in either component is a panic of the whole operation. -/
def Coord.div (a b : Coord) : Option Coord :=
  match isizeDiv a.x b.x, isizeDiv a.y b.y with
  | some cx, some cy => some ⟨cx, cy⟩
  | _, _ => none

/-- `Div<isize> for Coord` (lib.rs lines 157-162): both components divided
by one scalar. -/
def Coord.divScalar (a : Coord) (s : Int) : Option Coord :=
  match isizeDiv a.x s, isizeDiv a.y s with
  | some cx, some cy => some ⟨cx, cy⟩
  | _, _ => none

/-- `Rem<Coord> for Coord` (lib.rs lines 164-168): componentwise
remainder. -/
def Coord.mod (a b : Coord) : Option Coord :=
  match isizeRem a.x b.x, isizeRem a.y b.y with
  | some cx, some cy => some ⟨cx, cy⟩
  | _, _ => none

/-! ## Helper lemmas about the codec loop -/

/-- Overwriting index `i` and then taking `i + 1` elements appends the new
element to the first `i` elements. -/
theorem List.take_set_succ {α : Type _} (arr : List α) (i : Nat) (x : α)
    (h : i < arr.length) :
    (arr.set i x).take (i + 1) = arr.take i ++ [x] := by
  induction arr generalizing i with
  | nil => simp at h
  | cons a as ih =>
    cases i with
    | zero => rfl
    | succ i =>
      have h' : i < as.length := by simpa using h
      show a :: (as.set i x).take (i + 1) = a :: (as.take i ++ [x])
      rw [ih i h']

/-- The visitor loop, run on the serialized form of `xs` with a buffer large
enough to hold them starting at index `i`, succeeds and copies `xs` into the
buffer in order. -/
theorem visitSeqLoop_map_ok {T : Type} (deT : Value → Except DeError T)
    (serT : T → Value) (n : Nat) (hrt : ∀ t, deT (serT t) = Except.ok t) :
    ∀ (xs arr : List T) (i : Nat), arr.length = i + xs.length →
      visitSeqLoop deT n arr i xs.length (xs.map serT) =
        Except.ok (arr.take i ++ xs) := by
  intro xs
  induction xs with
  | nil =>
    intro arr i h
    simp only [List.length_nil, Nat.add_zero] at h
    simp [visitSeqLoop, ← h]
  | cons x xs ih =>
    intro arr i h
    have hi : i < arr.length := by simp only [h, List.length_cons]; omega
    simp only [List.map_cons, List.length_cons, visitSeqLoop, hrt x]
    rw [ih (arr.set i x) (i + 1)
      (by simp only [List.length_set, h, List.length_cons]; omega)]
    rw [List.take_set_succ arr i x hi, List.append_assoc]
    rfl

/-- General round trip of the fixed-array codec: deserializing the
serialization of an array of length `n` recovers it, provided the element
codec round-trips. -/
theorem deserializeArr_serializeArr {T : Type} (serT : T → Value)
    (deT : Value → Except DeError T) (dflt : T)
    (hrt : ∀ t, deT (serT t) = Except.ok t) (a : List T) :
    deserializeArr deT dflt a.length (serializeArr serT a) = Except.ok a := by
  have h := visitSeqLoop_map_ok deT serT a.length hrt a
      (List.replicate a.length dflt) 0 (by simp)
  simpa [deserializeArr, serializeArr] using h

/-- Row-level round trip, used as the element hypothesis for the nested
grid codec. -/
theorem ChunkDataRow.deserialize_serialize (N : Nat) (r : ChunkDataRow N) :
    ChunkDataRow.deserialize N (ChunkDataRow.serialize r) = Except.ok r := by
  obtain ⟨l, hl⟩ := r
  subst hl
  have h := deserializeArr_serializeArr blockSer blockDe blockDefault
      (fun t => rfl) l
  simp [ChunkDataRow.deserialize, ChunkDataRow.serialize, h]

/-! ## Claim theorems -/

/-- Claim C1: round-trip law of the fixed-array codec — for every element
type `T`, every length `n` and every array `a` of `n` elements, provided the
element codec itself round-trips, deserializing the sequence produced by
serializing `a` yields exactly `a`. -/
theorem c1_round_trip (T : Type) (serT : T → Value)
    (deT : Value → Except DeError T) (dflt : T)
    (hrt : ∀ t, deT (serT t) = Except.ok t) (n : Nat) (a : List T)
    (hlen : a.length = n) :
    deserializeArr deT dflt n (serializeArr serT a) = Except.ok a := by
  subst hlen
  exact deserializeArr_serializeArr serT deT dflt hrt a

/-- Witness for C1 at the concrete scenario of the spec: the `Grid<2,3>`
filled with `7` serializes and deserializes back to an identical grid. -/
theorem c1_round_trip_witness :
    ChunkData.deserialize 2 3 (ChunkData.serialize (ChunkData.new 2 3 7)) =
      Except.ok (ChunkData.new 2 3 7) := by
  have h := c1_round_trip (ChunkDataRow 2) ChunkDataRow.serialize
      (ChunkDataRow.deserialize 2) (ChunkDataRow.defaultRow 2)
      (ChunkDataRow.deserialize_serialize 2) 3 (ChunkData.new 2 3 7).val rfl
  simp [ChunkData.deserialize, ChunkData.serialize, h]

/-- If the input runs out with `r > 0` iterations still to go, the loop
fails with `invalid_length` at the first missing index `i + vs.length`,
provided every supplied element deserializes. -/
theorem visitSeqLoop_short {T : Type} (deT : Value → Except DeError T)
    (n : Nat) :
    ∀ (vs : List Value) (arr : List T) (i r : Nat), vs.length < r →
      (∀ v ∈ vs, ∃ x, deT v = Except.ok x) →
      visitSeqLoop deT n arr i r vs =
        Except.error (DeError.invalidLength (i + vs.length) n) := by
  intro vs
  induction vs with
  | nil =>
    intro arr i r hr _
    cases r with
    | zero => omega
    | succ r => simp [visitSeqLoop]
  | cons v vs ih =>
    intro arr i r hr hall
    cases r with
    | zero => simp at hr
    | succ r =>
      obtain ⟨x, hx⟩ := hall v (List.mem_cons_self v vs)
      simp only [visitSeqLoop, hx]
      rw [ih (arr.set i x) (i + 1) r (by simpa using hr)
        (fun w hw => hall w (List.mem_cons_of_mem v hw))]
      have harith : i + 1 + vs.length = i + (v :: vs).length := by
        simp only [List.length_cons]; omega
      rw [harith]

/-- With at least `r` elements of input, each of which deserializes, the
loop succeeds. -/
theorem visitSeqLoop_ok_exists {T : Type} (deT : Value → Except DeError T)
    (n : Nat) :
    ∀ (r : Nat) (vs : List Value) (arr : List T) (i : Nat), r ≤ vs.length →
      (∀ v ∈ vs, ∃ x, deT v = Except.ok x) →
      ∃ l, visitSeqLoop deT n arr i r vs = Except.ok l := by
  intro r
  induction r with
  | zero => intro vs arr i _ _; exact ⟨arr, rfl⟩
  | succ r ih =>
    intro vs arr i hr hall
    cases vs with
    | nil => simp at hr
    | cons v vs =>
      obtain ⟨x, hx⟩ := hall v (List.mem_cons_self v vs)
      simp only [visitSeqLoop, hx]
      exact ih vs (arr.set i x) (i + 1) (by simpa using hr)
        (fun w hw => hall w (List.mem_cons_of_mem v hw))

/-- The loop never looks past the first `r` elements of the input. -/
theorem visitSeqLoop_take {T : Type} (deT : Value → Except DeError T)
    (n : Nat) :
    ∀ (r : Nat) (vs : List Value) (arr : List T) (i : Nat),
      visitSeqLoop deT n arr i r vs = visitSeqLoop deT n arr i r (vs.take r) := by
  intro r
  induction r with
  | zero => intro vs arr i; rfl
  | succ r ih =>
    intro vs arr i
    cases vs with
    | nil => rfl
    | cons v vs =>
      show visitSeqLoop deT n arr i (r + 1) (v :: vs) =
        visitSeqLoop deT n arr i (r + 1) (v :: vs.take r)
      cases hv : deT v with
      | ok x => simp only [visitSeqLoop, hv]; exact ih vs (arr.set i x) (i + 1)
      | error e => simp only [visitSeqLoop, hv]

/-- Claim C2: deserialization of the fixed-array codec, on an input whose
elements all deserialize, fails if and only if the input supplies fewer than
`n` elements; when it fails, the error is `invalid_length` citing the first
missing index (the input length) and the expected length `n`; and the codec
reads exactly the first `n` elements, so excess elements are never examined
or rejected by the codec itself. -/
theorem c2_length_fault (T : Type) (deT : Value → Except DeError T) (dflt : T)
    (n : Nat) (vs : List Value)
    (hall : ∀ v ∈ vs, ∃ x, deT v = Except.ok x) :
    ((∃ l, deserializeArr deT dflt n (Value.seq vs) = Except.ok l) ↔
      n ≤ vs.length)
    ∧ (vs.length < n →
        deserializeArr deT dflt n (Value.seq vs) =
          Except.error (DeError.invalidLength vs.length n))
    ∧ deserializeArr deT dflt n (Value.seq vs) =
        deserializeArr deT dflt n (Value.seq (vs.take n)) := by
  have hshort : vs.length < n →
      deserializeArr deT dflt n (Value.seq vs) =
        Except.error (DeError.invalidLength vs.length n) := by
    intro h
    have := visitSeqLoop_short deT n vs (List.replicate n dflt) 0 n h hall
    simpa [deserializeArr] using this
  refine ⟨⟨?_, ?_⟩, hshort, ?_⟩
  · rintro ⟨l, hl⟩
    by_contra hn
    rw [hshort (by omega)] at hl
    exact Except.noConfusion hl
  · intro hn
    have := visitSeqLoop_ok_exists deT n n vs (List.replicate n dflt) 0 hn hall
    simpa [deserializeArr] using this
  · simpa [deserializeArr] using
      visitSeqLoop_take deT n n vs (List.replicate n dflt) 0

/-- Witness for C2 at the spec's concrete scenario: expected length 4, input
length 2, the reported error cites missing index 2 (and expected length
4). -/
theorem c2_length_fault_witness :
    deserializeArr blockDe blockDefault 4
        (Value.seq [Value.nat 7, Value.nat 7]) =
      Except.error (DeError.invalidLength 2 4) := by
  have hall : ∀ v ∈ [Value.nat 7, Value.nat 7], ∃ x, blockDe v = Except.ok x := by
    intro v hv
    simp only [List.mem_cons, List.not_mem_nil, or_false] at hv
    rcases hv with rfl | rfl
    · exact ⟨7, rfl⟩
    · exact ⟨7, rfl⟩
  have h := (c2_length_fault Nat blockDe blockDefault 4
      [Value.nat 7, Value.nat 7] hall).2.1 (by simp)
  simpa using h

/-- Claim C3: fill law — `ChunkDataRow::new(v)` puts `v` in every cell, and
`ChunkData::new(v)` puts `v` in every cell of every row. -/
theorem c3_fill_law :
    (∀ (N : Nat) (v : BlockID) (i : Fin N), (ChunkDataRow.new N v).get i = v)
    ∧ (∀ (X Y : Nat) (v : BlockID) (j : Fin Y) (i : Fin X),
        ((ChunkData.new X Y v).get j).get i = v) := by
  constructor
  · intro N v i
    simp [ChunkDataRow.new, ChunkDataRow.get, List.getElem_replicate]
  · intro X Y v j i
    simp [ChunkData.new, ChunkData.get, ChunkDataRow.new, ChunkDataRow.get,
      List.getElem_replicate]

/-- Claim C4: default law — `BlockID::default()` is zero and the default
constructors of row and grid put it in every cell. -/
theorem c4_default_law :
    blockDefault = 0
    ∧ (∀ (N : Nat) (i : Fin N), (ChunkDataRow.defaultRow N).get i = 0)
    ∧ (∀ (X Y : Nat) (j : Fin Y) (i : Fin X),
        ((ChunkData.defaultGrid X Y).get j).get i = 0) := by
  refine ⟨rfl, ?_, ?_⟩
  · intro N i
    simp [ChunkDataRow.defaultRow, ChunkDataRow.get, List.getElem_replicate,
      blockDefault]
  · intro X Y j i
    simp [ChunkData.defaultGrid, ChunkData.get, ChunkDataRow.defaultRow,
      ChunkDataRow.get, List.getElem_replicate, blockDefault]

/-- On a nonzero divisor that does not trigger signed overflow, a division
component succeeds with the truncating quotient. -/
theorem isizeDiv_eq_tdiv (a b : Int) (hb : b ≠ 0)
    (ho : ¬(a = isizeMin ∧ b = -1)) : isizeDiv a b = some (a.tdiv b) := by
  simp [isizeDiv, hb, ho]

/-- On a nonzero divisor that does not trigger signed overflow, a remainder
component succeeds with the truncated remainder. -/
theorem isizeRem_eq_tmod (a b : Int) (hb : b ≠ 0)
    (ho : ¬(a = isizeMin ∧ b = -1)) : isizeRem a b = some (a.tmod b) := by
  simp [isizeRem, hb, ho]

/-- Claim C6: coordinate division and modulo are componentwise with integer
division truncating toward zero (`Int.tdiv` / `Int.tmod`), for divisors with
both components nonzero (and, as the code inherits from `isize` arithmetic,
not triggering the `isize::MIN / -1` overflow panic, which claim C9
records). -/
theorem c6_componentwise (a b : Coord) (hbx : b.x ≠ 0) (hby : b.y ≠ 0)
    (hox : ¬(a.x = isizeMin ∧ b.x = -1)) (hoy : ¬(a.y = isizeMin ∧ b.y = -1)) :
    Coord.div a b = some ⟨a.x.tdiv b.x, a.y.tdiv b.y⟩ ∧
    Coord.mod a b = some ⟨a.x.tmod b.x, a.y.tmod b.y⟩ := by
  constructor
  · rw [Coord.div, isizeDiv_eq_tdiv a.x b.x hbx hox,
      isizeDiv_eq_tdiv a.y b.y hby hoy]
  · rw [Coord.mod, isizeRem_eq_tmod a.x b.x hbx hox,
      isizeRem_eq_tmod a.y b.y hby hoy]

/-- Witness for C6 at the spec's concrete scenarios: `(6,9) / (3,3) = (2,3)`
and `(6,9) % (4,4) = (2,1)`. -/
theorem c6_componentwise_witness :
    Coord.div ⟨6, 9⟩ ⟨3, 3⟩ = some ⟨2, 3⟩ ∧
      Coord.mod ⟨6, 9⟩ ⟨4, 4⟩ = some ⟨2, 1⟩ := by
  have h1 := (c6_componentwise ⟨6, 9⟩ ⟨3, 3⟩ (by decide) (by decide)
      (by decide) (by decide)).1
  have h2 := (c6_componentwise ⟨6, 9⟩ ⟨4, 4⟩ (by decide) (by decide)
      (by decide) (by decide)).2
  rw [h1, h2]
  exact ⟨by decide, by decide⟩

/-- Claim C5: the truncating division/remainder identity — for divisors with
both components nonzero (and no `isize::MIN / -1` overflow, cf. C9),
division and modulo succeed and `a = (a / b) * b + a % b` holds
componentwise. -/
theorem c5_div_rem_identity (a b : Coord) (hbx : b.x ≠ 0) (hby : b.y ≠ 0)
    (hox : ¬(a.x = isizeMin ∧ b.x = -1)) (hoy : ¬(a.y = isizeMin ∧ b.y = -1)) :
    ∃ q r, Coord.div a b = some q ∧ Coord.mod a b = some r ∧
      Coord.add (Coord.mul q b) r = a := by
  refine ⟨⟨a.x.tdiv b.x, a.y.tdiv b.y⟩, ⟨a.x.tmod b.x, a.y.tmod b.y⟩, ?_, ?_, ?_⟩
  · rw [Coord.div, isizeDiv_eq_tdiv a.x b.x hbx hox,
      isizeDiv_eq_tdiv a.y b.y hby hoy]
  · rw [Coord.mod, isizeRem_eq_tmod a.x b.x hbx hox,
      isizeRem_eq_tmod a.y b.y hby hoy]
  · obtain ⟨ax, ay⟩ := a
    simp only [Coord.add, Coord.mul, Coord.mk.injEq]
    exact ⟨Int.tdiv_add_tmod' ax b.x, Int.tdiv_add_tmod' ay b.y⟩

/-- Witness for C5 at a concrete input with truncation and mixed signs:
`a = (7, -9)`, `b = (3, -4)`. -/
theorem c5_div_rem_identity_witness :
    ∃ q r, Coord.div ⟨7, -9⟩ ⟨3, -4⟩ = some q ∧
      Coord.mod ⟨7, -9⟩ ⟨3, -4⟩ = some r ∧
      Coord.add (Coord.mul q ⟨3, -4⟩) r = ⟨7, -9⟩ :=
  c5_div_rem_identity ⟨7, -9⟩ ⟨3, -4⟩ (by decide) (by decide) (by decide)
    (by decide)

/-- Claim C8: a zero divisor component (or zero scalar) makes division,
scalar division and modulo fault — the error branch of the guarded
embedding is taken and no value is returned. -/
theorem c8_zero_divisor_faults (a b : Coord) (s : Int) :
    ((b.x = 0 ∨ b.y = 0) → Coord.div a b = none)
    ∧ (s = 0 → Coord.divScalar a s = none)
    ∧ ((b.x = 0 ∨ b.y = 0) → Coord.mod a b = none) := by
  refine ⟨?_, ?_, ?_⟩
  · rintro (h | h)
    · simp [Coord.div, isizeDiv, h]
    · cases hx : isizeDiv a.x b.x <;> simp [Coord.div, isizeDiv, h, hx]
  · intro h
    simp [Coord.divScalar, isizeDiv, h]
  · rintro (h | h)
    · simp [Coord.mod, isizeRem, h]
    · cases hx : isizeRem a.x b.x <;> simp [Coord.mod, isizeRem, h, hx]

/-- Witness for C8 at `a = (1, 2)`, `b = (0, 5)`, `s = 0`. -/
theorem c8_zero_divisor_faults_witness :
    Coord.div ⟨1, 2⟩ ⟨0, 5⟩ = none ∧ Coord.divScalar ⟨1, 2⟩ 0 = none ∧
      Coord.mod ⟨1, 2⟩ ⟨0, 5⟩ = none := by
  have h := c8_zero_divisor_faults ⟨1, 2⟩ ⟨0, 5⟩ 0
  exact ⟨h.1 (Or.inl rfl), h.2.1 rfl, h.2.2 (Or.inl rfl)⟩

/-- Claim C9: a zero divisor component is not the only faulting case —
with both divisor components nonzero, a dividend component equal to
`isize::MIN` divided (or taken modulo) by `-1` makes `div`, scalar `div`
and `mod` fault due to signed overflow rather than return a value. -/
theorem c9_overflow_faults :
    ((-1 : Int) ≠ 0 ∧ (1 : Int) ≠ 0)
    ∧ Coord.div ⟨isizeMin, 0⟩ ⟨-1, 1⟩ = none
    ∧ Coord.divScalar ⟨isizeMin, 0⟩ (-1) = none
    ∧ Coord.mod ⟨isizeMin, 0⟩ ⟨-1, 1⟩ = none := by
  refine ⟨⟨by decide, by decide⟩, ?_, ?_, ?_⟩
  · simp [Coord.div, isizeDiv, isizeMin]
  · simp [Coord.divScalar, isizeDiv, isizeMin]
  · simp [Coord.mod, isizeRem, isizeMin]

/-- Truncated remainder: for a nonzero divisor the remainder is zero or has
the sign of the dividend and absolute value strictly below the divisor's. -/
theorem Int.tmod_trunc_cases (a b : Int) (hb : b ≠ 0) :
    a.tmod b = 0 ∨
      (Int.sign (a.tmod b) = Int.sign a ∧ (a.tmod b).natAbs < b.natAbs) := by
  cases a with
  | ofNat m =>
    cases b with
    | ofNat n =>
      have hn : 0 < n := Nat.pos_of_ne_zero (Int.ofNat_ne_zero.mp hb)
      have ht : Int.tmod (Int.ofNat m) (Int.ofNat n) = Int.ofNat (m % n) := rfl
      rw [ht]
      by_cases hmn : m % n = 0
      · left; rw [hmn]; rfl
      · right
        refine ⟨?_, by simpa using Nat.mod_lt m hn⟩
        have hm : m ≠ 0 := fun h0 => hmn (by simp [h0])
        obtain ⟨k, hk⟩ : ∃ k, m % n = k + 1 := ⟨m % n - 1, by omega⟩
        obtain ⟨p, hp⟩ : ∃ p, m = p + 1 := ⟨m - 1, by omega⟩
        rw [hk, hp]
        rfl
    | negSucc n =>
      have ht : Int.tmod (Int.ofNat m) (Int.negSucc n) =
          Int.ofNat (m % (n + 1)) := rfl
      rw [ht]
      by_cases hmn : m % (n + 1) = 0
      · left; rw [hmn]; rfl
      · right
        refine ⟨?_, by simpa using Nat.mod_lt m (Nat.succ_pos n)⟩
        have hm : m ≠ 0 := fun h0 => hmn (by simp [h0])
        obtain ⟨k, hk⟩ : ∃ k, m % (n + 1) = k + 1 := ⟨m % (n + 1) - 1, by omega⟩
        obtain ⟨p, hp⟩ : ∃ p, m = p + 1 := ⟨m - 1, by omega⟩
        rw [hk, hp]
        rfl
  | negSucc m =>
    cases b with
    | ofNat n =>
      have hn : 0 < n := Nat.pos_of_ne_zero (Int.ofNat_ne_zero.mp hb)
      have ht : Int.tmod (Int.negSucc m) (Int.ofNat n) =
          -Int.ofNat ((m + 1) % n) := rfl
      rw [ht]
      by_cases hmn : (m + 1) % n = 0
      · left; rw [hmn]; rfl
      · right
        refine ⟨?_, by simpa using Nat.mod_lt (m + 1) hn⟩
        obtain ⟨k, hk⟩ : ∃ k, (m + 1) % n = k + 1 := ⟨(m + 1) % n - 1, by omega⟩
        rw [hk]
        rfl
    | negSucc n =>
      have ht : Int.tmod (Int.negSucc m) (Int.negSucc n) =
          -Int.ofNat ((m + 1) % (n + 1)) := rfl
      rw [ht]
      by_cases hmn : (m + 1) % (n + 1) = 0
      · left; rw [hmn]; rfl
      · right
        refine ⟨?_, by simpa using Nat.mod_lt (m + 1) (Nat.succ_pos n)⟩
        obtain ⟨k, hk⟩ : ∃ k, (m + 1) % (n + 1) = k + 1 :=
          ⟨(m + 1) % (n + 1) - 1, by omega⟩
        rw [hk]
        rfl

/-- Claim C10: modulo computes the truncated-division remainder — for
divisors with both components nonzero and no `isize::MIN % -1` overflow,
modulo succeeds and each result component is zero or has the sign of the
corresponding dividend component and absolute value strictly below the
divisor component's; in particular the result can be negative when the
dividend has negative components (`(-7, 3) % (4, 4) = (-3, 3)`). -/
theorem c10_mod_truncated_sign :
    (∀ a b : Coord, b.x ≠ 0 → b.y ≠ 0 →
      ¬(a.x = isizeMin ∧ b.x = -1) → ¬(a.y = isizeMin ∧ b.y = -1) →
      ∃ r, Coord.mod a b = some r ∧
        (r.x = 0 ∨ (Int.sign r.x = Int.sign a.x ∧ r.x.natAbs < b.x.natAbs)) ∧
        (r.y = 0 ∨ (Int.sign r.y = Int.sign a.y ∧ r.y.natAbs < b.y.natAbs)))
    ∧ (Coord.mod ⟨-7, 3⟩ ⟨4, 4⟩ = some ⟨-3, 3⟩ ∧ (-3 : Int) < 0) := by
  constructor
  · intro a b hbx hby hox hoy
    refine ⟨⟨a.x.tmod b.x, a.y.tmod b.y⟩, ?_, ?_, ?_⟩
    · rw [Coord.mod, isizeRem_eq_tmod a.x b.x hbx hox,
        isizeRem_eq_tmod a.y b.y hby hoy]
    · exact Int.tmod_trunc_cases a.x b.x hbx
    · exact Int.tmod_trunc_cases a.y b.y hby
  · exact ⟨by decide, by decide⟩

/-- Witness for C10 at `a = (-7, -9)`, `b = (4, 5)` (both remainder
components negative). -/
theorem c10_mod_truncated_sign_witness :
    ∃ r, Coord.mod ⟨-7, -9⟩ ⟨4, 5⟩ = some r ∧
      (r.x = 0 ∨ (Int.sign r.x = Int.sign (Coord.mk (-7) (-9)).x ∧
        r.x.natAbs < (Coord.mk 4 5).x.natAbs)) ∧
      (r.y = 0 ∨ (Int.sign r.y = Int.sign (Coord.mk (-7) (-9)).y ∧
        r.y.natAbs < (Coord.mk 4 5).y.natAbs)) :=
  c10_mod_truncated_sign.1 ⟨-7, -9⟩ ⟨4, 5⟩ (by decide) (by decide) (by decide)
    (by decide)

/-- Claim C7: serialization of the fixed-array codec emits exactly as many
elements as the array holds, in index order; applied to a grid of `X`
columns and `Y` rows it produces a sequence of exactly `Y` elements, the
`j`-th being the sequence of exactly `X` scalar identifiers of row `j` in
column order.  (In this embedding serialization is total: it always
succeeds, matching "always succeeds if every element serializes
successfully".) -/
theorem c7_serialize_shape :
    (∀ (T : Type) (serT : T → Value) (a : List T),
      ∃ vs, serializeArr serT a = Value.seq vs ∧ vs.length = a.length ∧
        ∀ i : Fin a.length, vs[(i : Nat)]? = some (serT (a.get i)))
    ∧ (∀ (X Y : Nat) (g : ChunkData X Y),
      ∃ rows, ChunkData.serialize g = Value.seq rows ∧ rows.length = Y ∧
        ∀ j : Fin Y, ∃ cells, rows[(j : Nat)]? = some (Value.seq cells) ∧
          cells.length = X ∧
          ∀ i : Fin X, cells[(i : Nat)]? = some (Value.nat ((g.get j).get i))) := by
  constructor
  · intro T serT a
    refine ⟨a.map serT, rfl, List.length_map a serT, ?_⟩
    intro i
    rw [List.getElem?_map, List.getElem?_eq_getElem i.isLt]
    simp
  · intro X Y g
    refine ⟨g.val.map ChunkDataRow.serialize, rfl, ?_, ?_⟩
    · rw [List.length_map, g.property]
    · intro j
      have hj : (j : Nat) < g.val.length := by rw [g.property]; exact j.isLt
      have hrow : g.get j = g.val[(j : Nat)] := by
        simp [ChunkData.get]
      refine ⟨(g.get j).val.map blockSer, ?_, ?_, ?_⟩
      · rw [List.getElem?_map, List.getElem?_eq_getElem hj]
        simp only [Option.map_some']
        rw [hrow]
        rfl
      · rw [List.length_map, (g.get j).property]
      · intro i
        have hi : (i : Nat) < (g.get j).val.length := by
          rw [(g.get j).property]; exact i.isLt
        rw [List.getElem?_map, List.getElem?_eq_getElem hi]
        simp [ChunkDataRow.get, blockSer]

/-- Counterexample to C5 as stated: at `a = (isize::MIN, 5)`,
`b = (-1, 3)` both divisor components are nonzero, yet division faults
(signed overflow), so no quotient/remainder pair satisfying the identity
exists. -/
theorem c5_div_rem_identity_counterexample :
    ((Coord.mk (-1) 3).x ≠ 0 ∧ (Coord.mk (-1) 3).y ≠ 0) ∧
    ¬∃ q r, Coord.div ⟨isizeMin, 5⟩ ⟨-1, 3⟩ = some q ∧
      Coord.mod ⟨isizeMin, 5⟩ ⟨-1, 3⟩ = some r ∧
      Coord.add (Coord.mul q ⟨-1, 3⟩) r = ⟨isizeMin, 5⟩ := by
  refine ⟨⟨by decide, by decide⟩, ?_⟩
  rintro ⟨q, r, hq, -, -⟩
  rw [show Coord.div ⟨isizeMin, 5⟩ ⟨-1, 3⟩ = none from by decide] at hq
  exact Option.noConfusion hq

/-- Counterexample to C6 as stated: at `a = (2, isize::MIN)`, `b = (2, -1)`
both divisor components are nonzero, yet division and modulo fault (signed
overflow) instead of returning the componentwise quotient/remainder. -/
theorem c6_componentwise_counterexample :
    ((Coord.mk 2 (-1)).x ≠ 0 ∧ (Coord.mk 2 (-1)).y ≠ 0) ∧
    Coord.div ⟨2, isizeMin⟩ ⟨2, -1⟩ = none ∧
    Coord.mod ⟨2, isizeMin⟩ ⟨2, -1⟩ = none := by decide
